import Mathlib

/-!
Shallow embedding of `src/src/lab.c`: a fixed-capacity, thread-safe FIFO
queue (bounded buffer) with mutex/condition-variable blocking and a
cooperative shutdown protocol.

Modelling choices:
* Items are C `void *` pointers, modelled as `Ptr := Nat`; the null pointer
  is `nullPtr = 0`.  `dequeue` returns `NULL` as its empty sentinel, so the
  sentinel value is `nullPtr`.
* The struct fields `capacity`, `size`, `front`, `rear` are C `int`s,
  modelled as `Int` (`rear` is initialised to `-1`).  The C `%` operator
  truncates toward zero, which is `Int.tmod`.
* The backing array `void **buffer` is modelled as a total function
  `Int → Ptr`.  `malloc` returns indeterminate memory, so `queue_init`
  takes an arbitrary initial content `junk`; reads of unwritten slots
  return that arbitrary content, exactly as the C reads whatever is there.
* Blocking: each operation runs under the queue mutex.  In a sequential
  (single-caller) semantics a `pthread_cond_wait` whose loop guard holds
  never returns (no other thread can change the state), so an operation
  whose wait-loop guard is true is modelled as returning `none`
  ("blocks").  All other paths are `some`-valued state transformers.
* `malloc` failure in `queue_init` is environment nondeterminism, exposed
  as two boolean oracles (one per `malloc` call).
* `queue_shutdown`'s `pthread_cond_broadcast` on both conditions is
  modelled in a small thread layer (`ThreadState`, `wake`, `wakeAll`):
  a blocked thread resumed by the broadcast re-runs its wait loop from
  the top, exactly the C control flow after `pthread_cond_wait` returns.
-/

namespace BoundedQueue

/-- A C `void *` value, modelled as a natural-number address. -/
abbrev Ptr := Nat

/-- The C null pointer, which `dequeue` also uses as its empty sentinel. -/
def nullPtr : Ptr := 0

/-- The `struct queue` of `lab.c` (synchronisation primitives carry no
observable sequential state and are omitted; the mutex is represented by
each operation being an atomic state transformer). -/
structure Queue where
  buffer : Int → Ptr
  capacity : Int
  size : Int
  front : Int
  rear : Int
  is_shutdown : Bool

/-- `queue_init` from `lab.c`.  `mallocQueue` and `mallocBuffer` are the
outcomes of the two `malloc` calls; `junk` is the indeterminate initial
content of the freshly allocated buffer.  Returns `none` (C `NULL`) when
either allocation fails. -/
def queue_init (capacity : Int) (mallocQueue mallocBuffer : Bool)
    (junk : Int → Ptr) : Option Queue :=
  if !mallocQueue then none
  else if !mallocBuffer then none
  else some
    { buffer := junk
      capacity := capacity
      size := 0
      front := 0
      rear := -1
      is_shutdown := false }

/-- `enqueue` from `lab.c`.  `none` means the call blocks forever in the
sequential semantics (wait-loop guard `size == capacity && !is_shutdown`
holds and no other thread can change the state). -/
def enqueue (q : Queue) (data : Ptr) : Option Queue :=
  if q.size == q.capacity && !q.is_shutdown then
    none
  else if q.is_shutdown then
    some q
  else
    let r := (q.rear + 1).tmod q.capacity
    some { q with
      rear := r
      buffer := Function.update q.buffer r data
      size := q.size + 1 }

/-- `dequeue` from `lab.c`.  `none` means the call blocks forever in the
sequential semantics (wait-loop guard `size == 0 && !is_shutdown` holds).
On the empty-after-shutdown path it returns the C `NULL` sentinel. -/
def dequeue (q : Queue) : Option (Ptr × Queue) :=
  if q.size == 0 && !q.is_shutdown then
    none
  else if q.size == 0 then
    some (nullPtr, q)
  else
    some (q.buffer q.front,
      { q with
        front := (q.front + 1).tmod q.capacity
        size := q.size - 1 })

/-- `queue_shutdown` from `lab.c`: sets the flag (the broadcasts on both
condition variables are modelled by `wakeAll` below; the `fprintf` to
`stderr` has no queue-state effect). -/
def queue_shutdown (q : Queue) : Queue :=
  { q with is_shutdown := true }

/-- `is_empty` from `lab.c`. -/
def is_empty (q : Queue) : Bool :=
  q.size == 0

/-- `is_shutdown` from `lab.c` (the status query, reading the flag). -/
def is_shutdown (q : Queue) : Bool :=
  q.is_shutdown

/-- Abstraction function: the sequence of resident items, front first —
the contents of `buffer` at indices `[front, front+size) mod capacity`. -/
def toList (q : Queue) : List Ptr :=
  (List.range q.size.toNat).map
    (fun i : Nat => q.buffer ((q.front + (i : Int)) % q.capacity))

/-- The structural invariant of a live queue of positive capacity:
`0 ≤ size ≤ capacity`, `front` in range, and `rear` is either its initial
value `-1` (nothing ever enqueued) or points at the most recently
enqueued slot, `(front + size - 1) mod capacity`. -/
def Inv (q : Queue) : Prop :=
  0 < q.capacity ∧ 0 ≤ q.size ∧ q.size ≤ q.capacity ∧
  0 ≤ q.front ∧ q.front < q.capacity ∧
  ((q.rear = -1 ∧ q.size = 0 ∧ q.front = 0) ∨
   (0 ≤ q.rear ∧ q.rear < q.capacity ∧
    q.rear = (q.front + q.size - 1) % q.capacity))

instance (q : Queue) : Decidable (Inv q) := by
  unfold Inv; infer_instance

/-- A caller enqueueing each value of `vs` in turn; `none` if some call
blocks. -/
def enqueueAll (q : Queue) : List Ptr → Option Queue
  | [] => some q
  | v :: vs => (enqueue q v).bind (fun q1 => enqueueAll q1 vs)

/-- A caller dequeueing `n` times, collecting the returned values in call
order; `none` if some call blocks. -/
def dequeueN (q : Queue) : Nat → Option (List Ptr × Queue)
  | 0 => some ([], q)
  | n + 1 =>
    (dequeue q).bind fun p =>
      (dequeueN p.2 n).map fun r => (p.1 :: r.1, r.2)

/-- One sequential API call, for quantifying over operation sequences.
`isEmptyCall` and `isShutdownCall` return a snapshot and leave the state
unchanged. -/
inductive Op where
  | enq (v : Ptr)
  | deq
  | shut
  | isEmptyCall
  | isShutdownCall

/-- State effect of one API call (`none` = the call blocks forever in the
sequential semantics). -/
def runOp (q : Queue) : Op → Option Queue
  | .enq v => enqueue q v
  | .deq => (dequeue q).map (fun p => p.2)
  | .shut => some (queue_shutdown q)
  | .isEmptyCall => some q
  | .isShutdownCall => some q

/-- State effect of a sequence of API calls. -/
def runOps (q : Queue) : List Op → Option Queue
  | [] => some q
  | op :: ops => (runOp q op).bind (fun q1 => runOps q1 ops)

/-- A thread calling into the queue, as seen at its suspension/return
points: parked in `pthread_cond_wait` inside `enqueue` (on `not_full`,
holding the pending item) or inside `dequeue` (on `not_empty`), or
already returned. -/
inductive ThreadState where
  | blockedEnq (v : Ptr)
  | blockedDeq
  | doneEnq
  | doneDeq (r : Ptr)
  deriving DecidableEq

/-- Whether a thread is parked in a condition wait. -/
def isBlocked : ThreadState → Bool
  | .blockedEnq _ => true
  | .blockedDeq => true
  | .doneEnq => false
  | .doneDeq _ => false

/-- Whether a thread has returned from its call. -/
def isDone (t : ThreadState) : Bool :=
  !(isBlocked t)

/-- Resume a woken thread: it reacquires the mutex and re-runs its wait
loop from the top, exactly the C control flow after `pthread_cond_wait`
returns.  If the loop guard still holds it parks again; otherwise it
finishes its call. -/
def wake (q : Queue) : ThreadState → Queue × ThreadState
  | .blockedEnq v =>
    if q.size == q.capacity && !q.is_shutdown then
      (q, .blockedEnq v)
    else if q.is_shutdown then
      (q, .doneEnq)
    else
      let r := (q.rear + 1).tmod q.capacity
      ({ q with
          rear := r
          buffer := Function.update q.buffer r v
          size := q.size + 1 }, .doneEnq)
  | .blockedDeq =>
    if q.size == 0 && !q.is_shutdown then
      (q, .blockedDeq)
    else if q.size == 0 then
      (q, .doneDeq nullPtr)
    else
      ({ q with
          front := (q.front + 1).tmod q.capacity
          size := q.size - 1 }, .doneDeq (q.buffer q.front))
  | t => (q, t)

/-- Effect of `queue_shutdown`'s two broadcasts: every parked thread is
woken and resumes, one at a time in list order (the mutex serialises the
resumptions). -/
def wakeAll (q : Queue) : List ThreadState → Queue × List ThreadState
  | [] => (q, [])
  | t :: ts =>
    let p := wake q t
    let r := wakeAll p.1 ts
    (r.1, p.2 :: r.2)

/-! ### Helper lemmas -/

theorem toList_length (q : Queue) : (toList q).length = q.size.toNat := by
  unfold toList
  rw [List.length_map, List.length_range]

theorem queue_init_inv {cap : Int} {mq mb : Bool} {junk : Int → Ptr} {q : Queue}
    (h : queue_init cap mq mb junk = some q) :
    q.buffer = junk ∧ q.capacity = cap ∧ q.size = 0 ∧ q.front = 0 ∧
    q.rear = -1 ∧ q.is_shutdown = false := by
  cases mq
  · simp [queue_init] at h
  · cases mb
    · simp [queue_init] at h
    · simp [queue_init] at h
      simp [← h]

theorem Inv_init {cap : Int} {mq mb : Bool} {junk : Int → Ptr} {q : Queue}
    (hcap : 0 < cap) (h : queue_init cap mq mb junk = some q) : Inv q := by
  obtain ⟨-, h2, h3, h4, h5, -⟩ := queue_init_inv h
  refine ⟨?_, ?_, ?_, ?_, ?_, Or.inl ⟨h5, h3, h4⟩⟩ <;> omega

/-- Two resident-range offsets `i < s` and `s` land on distinct slots when
`s < cap`. -/
theorem emod_index_ne {cap front i s : Int} (hc : 0 < cap) (hi : 0 ≤ i)
    (his : i < s) (hsc : s < cap) :
    (front + i) % cap ≠ (front + s) % cap := by
  intro h
  rw [Int.emod_eq_emod_iff_emod_sub_eq_zero] at h
  have hsub : front + i - (front + s) = -(s - i) := by ring
  rw [hsub, Int.neg_emod, Int.emod_eq_of_lt (by omega) (by omega)] at h
  have h1 : (s - i) % cap = s - i := Int.emod_eq_of_lt (by omega) (by omega)
  omega

/-- The write index of a successful insertion is `(front + size) % cap`. -/
theorem rear_step {q : Queue} (hInv : Inv q) :
    (q.rear + 1).tmod q.capacity = (q.front + q.size) % q.capacity := by
  obtain ⟨hc, hs0, hsc, hf0, hfc, hrear⟩ := hInv
  rcases hrear with ⟨hr1, hr2, hr3⟩ | ⟨hr1, hr2, hr3⟩
  · rw [hr1, hr2, hr3]
    simp
  · rw [hr3, Int.tmod_eq_emod (by omega) (by omega), Int.emod_add_emod]
    congr 1
    ring

theorem enqueue_spec {q : Queue} (v : Ptr) (hInv : Inv q)
    (hns : q.is_shutdown = false) (hlt : q.size < q.capacity) :
    ∃ q', enqueue q v = some q' ∧ Inv q' ∧ q'.capacity = q.capacity ∧
      q'.size = q.size + 1 ∧ q'.front = q.front ∧
      q'.is_shutdown = false ∧ toList q' = toList q ++ [v] := by
  have hr := rear_step hInv
  obtain ⟨hc, hs0, hsc, hf0, hfc, hrear⟩ := hInv
  have hne : q.size ≠ q.capacity := by omega
  refine ⟨{ q with
      rear := (q.rear + 1).tmod q.capacity
      buffer := Function.update q.buffer ((q.rear + 1).tmod q.capacity) v
      size := q.size + 1 }, ?_, ?_, rfl, rfl, rfl, hns, ?_⟩
  · simp [enqueue, hne, hns]
  · -- the invariant after the insertion
    refine ⟨hc, by show (0 : Int) ≤ q.size + 1; omega,
      by show q.size + 1 ≤ q.capacity; omega, hf0, hfc, Or.inr ⟨?_, ?_, ?_⟩⟩
    · show (0 : Int) ≤ (q.rear + 1).tmod q.capacity
      rw [hr]
      exact Int.emod_nonneg _ (by omega)
    · show (q.rear + 1).tmod q.capacity < q.capacity
      rw [hr]
      exact Int.emod_lt_of_pos _ hc
    · show (q.rear + 1).tmod q.capacity = (q.front + (q.size + 1) - 1) % q.capacity
      rw [hr]
      congr 1
      ring
  · -- abstraction: the new contents are the old ones with `v` appended
    show (List.range (q.size + 1).toNat).map
        (fun i : Nat => Function.update q.buffer ((q.rear + 1).tmod q.capacity) v
          ((q.front + (i : Int)) % q.capacity)) =
      (List.range q.size.toNat).map
        (fun i : Nat => q.buffer ((q.front + (i : Int)) % q.capacity)) ++ [v]
    have hsz : (q.size + 1).toNat = q.size.toNat + 1 := by omega
    rw [hsz, List.range_succ, List.map_append, List.map_cons, List.map_nil]
    congr 1
    · -- old slots are untouched by the write at the new rear
      apply List.map_congr_left
      intro i hi
      have hilt : i < q.size.toNat := List.mem_range.mp hi
      have hne2 : (q.front + (i : Int)) % q.capacity ≠
          (q.rear + 1).tmod q.capacity := by
        rw [hr]
        exact emod_index_ne hc (by omega) (by omega) (by omega)
      exact Function.update_noteq hne2 _ _
    · -- the new slot holds `v`
      have hidx : (q.front + (q.size.toNat : Int)) % q.capacity =
          (q.rear + 1).tmod q.capacity := by
        rw [hr]
        congr 1
        omega
      rw [hidx, Function.update_same]

theorem dequeue_spec {q : Queue} (hInv : Inv q) (hpos : 0 < q.size) :
    ∃ q', dequeue q = some (q.buffer q.front, q') ∧ Inv q' ∧
      q'.capacity = q.capacity ∧ q'.size = q.size - 1 ∧
      q'.is_shutdown = q.is_shutdown ∧ q'.rear = q.rear ∧
      toList q = q.buffer q.front :: toList q' := by
  obtain ⟨hc, hs0, hsc, hf0, hfc, hrear⟩ := hInv
  have hne : q.size ≠ 0 := by omega
  have hf1 : (q.front + 1).tmod q.capacity = (q.front + 1) % q.capacity :=
    Int.tmod_eq_emod (by omega) (by omega)
  refine ⟨{ q with
      front := (q.front + 1).tmod q.capacity
      size := q.size - 1 }, ?_, ?_, rfl, rfl, rfl, rfl, ?_⟩
  · simp [dequeue, hne]
  · -- the invariant after the removal
    rcases hrear with ⟨-, hr2, -⟩ | ⟨hr1, hr2, hr3⟩
    · omega
    refine ⟨hc, by show (0 : Int) ≤ q.size - 1; omega,
      by show q.size - 1 ≤ q.capacity; omega, ?_, ?_, Or.inr ⟨hr1, hr2, ?_⟩⟩
    · show (0 : Int) ≤ (q.front + 1).tmod q.capacity
      rw [hf1]
      exact Int.emod_nonneg _ (by omega)
    · show (q.front + 1).tmod q.capacity < q.capacity
      rw [hf1]
      exact Int.emod_lt_of_pos _ hc
    · show q.rear = ((q.front + 1).tmod q.capacity + (q.size - 1) - 1) % q.capacity
      rw [hr3, hf1]
      conv_rhs => rw [Int.add_sub_assoc, Int.emod_add_emod]
      congr 1
      ring
  · -- abstraction: the old contents are the removed head and the new contents
    show toList q = q.buffer q.front ::
      (List.range (q.size - 1).toNat).map
        (fun i : Nat => q.buffer
          (((q.front + 1).tmod q.capacity + (i : Int)) % q.capacity))
    have hsz : q.size.toNat = (q.size - 1).toNat + 1 := by omega
    unfold toList
    rw [hsz, List.range_succ_eq_map, List.map_cons, List.map_map]
    congr 1
    · -- the head of the abstraction is the slot at `front`
      show q.buffer ((q.front + ((0 : Nat) : Int)) % q.capacity) = q.buffer q.front
      congr 1
      show (q.front + 0) % q.capacity = q.front
      rw [Int.add_zero]
      exact Int.emod_eq_of_lt hf0 hfc
    · -- the tail is the abstraction of the advanced queue
      apply List.map_congr_left
      intro i hi
      show q.buffer ((q.front + ((i + 1 : Nat) : Int)) % q.capacity) =
        q.buffer (((q.front + 1).tmod q.capacity + (i : Int)) % q.capacity)
      congr 1
      rw [hf1, Int.emod_add_emod]
      congr 1
      push_cast
      ring

theorem toList_shutdown (q : Queue) : toList (queue_shutdown q) = toList q := rfl

theorem Inv_shutdown {q : Queue} (hInv : Inv q) : Inv (queue_shutdown q) := hInv

/-- A dequeue on an empty, shut-down queue: returns the `NULL` sentinel at
once (no blocking) and leaves the state untouched. -/
theorem dequeue_empty_shutdown {q : Queue} (hs : q.size = 0)
    (hsd : q.is_shutdown = true) : dequeue q = some (nullPtr, q) := by
  simp [dequeue, hs, hsd]

/-- An enqueue on a shut-down queue returns at once without touching any
field of the state. -/
theorem enqueue_shutdown {q : Queue} (v : Ptr) (hsd : q.is_shutdown = true) :
    enqueue q v = some q := by
  simp [enqueue, hsd]

/-- Any completed call preserves the invariant, the capacity, and never
clears the shutdown flag. -/
theorem runOp_inv {q q' : Queue} {op : Op} (hInv : Inv q)
    (h : runOp q op = some q') :
    Inv q' ∧ q'.capacity = q.capacity ∧
    (q.is_shutdown = true → q'.is_shutdown = true) := by
  obtain ⟨hc, hs0, hsc, hf0, hfc, hrear⟩ := hInv
  cases op with
  | enq v =>
    by_cases hsd : q.is_shutdown = true
    · rw [show runOp q (Op.enq v) = enqueue q v from rfl,
        enqueue_shutdown v hsd] at h
      cases h
      exact ⟨⟨hc, hs0, hsc, hf0, hfc, hrear⟩, rfl, fun h => h⟩
    · have hns : q.is_shutdown = false := by
        cases hq : q.is_shutdown
        · rfl
        · exact absurd hq hsd
      by_cases hfull : q.size = q.capacity
      · exfalso
        have : enqueue q v = none := by
          simp [enqueue, hfull, hns]
        rw [show runOp q (Op.enq v) = enqueue q v from rfl, this] at h
        cases h
      · obtain ⟨q2, he, hi2, hcap2, -, -, hsd2, -⟩ :=
          enqueue_spec v ⟨hc, hs0, hsc, hf0, hfc, hrear⟩ hns (by omega)
        rw [show runOp q (Op.enq v) = enqueue q v from rfl, he] at h
        cases h
        exact ⟨hi2, hcap2, fun hcontra => absurd hcontra (by rw [hns]; simp)⟩
  | deq =>
    by_cases hpos : 0 < q.size
    · obtain ⟨q2, hd, hi2, hcap2, -, hsd2, -, -⟩ :=
        dequeue_spec ⟨hc, hs0, hsc, hf0, hfc, hrear⟩ hpos
      rw [show runOp q Op.deq = (dequeue q).map (fun p => p.2) from rfl,
        hd] at h
      cases h
      exact ⟨hi2, hcap2, fun hs => by rw [hsd2, hs]⟩
    · have hz : q.size = 0 := by omega
      by_cases hsd : q.is_shutdown = true
      · rw [show runOp q Op.deq = (dequeue q).map (fun p => p.2) from rfl,
          dequeue_empty_shutdown hz hsd] at h
        cases h
        exact ⟨⟨hc, hs0, hsc, hf0, hfc, hrear⟩, rfl, fun h => h⟩
      · exfalso
        have hns : q.is_shutdown = false := by
          cases hq : q.is_shutdown
          · rfl
          · exact absurd hq hsd
        have : dequeue q = none := by
          simp [dequeue, hz, hns]
        rw [show runOp q Op.deq = (dequeue q).map (fun p => p.2) from rfl,
          this] at h
        cases h
  | shut =>
    cases h
    exact ⟨⟨hc, hs0, hsc, hf0, hfc, hrear⟩, rfl, fun _ => rfl⟩
  | isEmptyCall =>
    cases h
    exact ⟨⟨hc, hs0, hsc, hf0, hfc, hrear⟩, rfl, fun h => h⟩
  | isShutdownCall =>
    cases h
    exact ⟨⟨hc, hs0, hsc, hf0, hfc, hrear⟩, rfl, fun h => h⟩

theorem runOps_inv {q q' : Queue} {ops : List Op} (hInv : Inv q)
    (h : runOps q ops = some q') :
    Inv q' ∧ q'.capacity = q.capacity ∧
    (q.is_shutdown = true → q'.is_shutdown = true) := by
  induction ops generalizing q with
  | nil =>
    cases h
    exact ⟨hInv, rfl, fun h => h⟩
  | cons op ops ih =>
    rw [show runOps q (op :: ops) =
      (runOp q op).bind (fun q1 => runOps q1 ops) from rfl] at h
    cases hop : runOp q op with
    | none => rw [hop] at h; cases h
    | some q1 =>
      rw [hop] at h
      obtain ⟨h1, hcap1, hmono1⟩ := runOp_inv hInv hop
      obtain ⟨h2, hcap2, hmono2⟩ := ih h1 h
      exact ⟨h2, by rw [hcap2, hcap1], fun hs => hmono2 (hmono1 hs)⟩

theorem enqueueAll_spec {q : Queue} (vs : List Ptr) (hInv : Inv q)
    (hns : q.is_shutdown = false)
    (hfit : q.size + vs.length ≤ q.capacity) :
    ∃ q', enqueueAll q vs = some q' ∧ Inv q' ∧ q'.capacity = q.capacity ∧
      q'.size = q.size + vs.length ∧ q'.is_shutdown = false ∧
      toList q' = toList q ++ vs := by
  induction vs generalizing q with
  | nil =>
    exact ⟨q, rfl, hInv, rfl, by simp, hns, by simp⟩
  | cons v vs ih =>
    have hlen : (v :: vs).length = vs.length + 1 := rfl
    have hlt : q.size < q.capacity := by
      rw [hlen] at hfit
      omega
    obtain ⟨q1, he, hi1, hcap1, hsz1, -, hsd1, hl1⟩ :=
      enqueue_spec v hInv hns hlt
    obtain ⟨q2, hrest, hi2, hcap2, hsz2, hsd2, hl2⟩ := ih hi1 hsd1
      (by rw [hcap1, hsz1]; rw [hlen] at hfit; omega)
    refine ⟨q2, ?_, hi2, by rw [hcap2, hcap1], ?_, hsd2, ?_⟩
    · rw [show enqueueAll q (v :: vs) =
        (enqueue q v).bind (fun qq => enqueueAll qq vs) from rfl, he]
      exact hrest
    · rw [hsz2, hsz1, hlen]
      omega
    · rw [hl2, hl1]
      simp

theorem dequeueN_spec {q : Queue} (n : Nat) (hInv : Inv q)
    (hn : (n : Int) ≤ q.size) :
    ∃ q', dequeueN q n = some ((toList q).take n, q') ∧ Inv q' ∧
      q'.capacity = q.capacity ∧ q'.size = q.size - n ∧
      q'.is_shutdown = q.is_shutdown ∧ toList q' = (toList q).drop n := by
  induction n generalizing q with
  | zero =>
    exact ⟨q, by simp [dequeueN], hInv, rfl, by simp, rfl, by simp⟩
  | succ n ih =>
    have hpos : 0 < q.size := by push_cast at hn; omega
    obtain ⟨q1, hd, hi1, hcap1, hsz1, hsd1, -, hl1⟩ := dequeue_spec hInv hpos
    obtain ⟨q2, hrest, hi2, hcap2, hsz2, hsd2, hl2⟩ := ih hi1
      (by rw [hsz1]; push_cast at hn ⊢; omega)
    refine ⟨q2, ?_, hi2, by rw [hcap2, hcap1], ?_, by rw [hsd2, hsd1], ?_⟩
    · rw [show dequeueN q (n + 1) = (dequeue q).bind
        (fun p => (dequeueN p.2 n).map fun r => (p.1 :: r.1, r.2)) from rfl,
        hd]
      show (dequeueN q1 n).map _ = _
      rw [hrest]
      show some (q.buffer q.front :: (toList q1).take n, q2) = _
      rw [hl1, List.take_succ_cons]
    · rw [hsz2, hsz1]
      push_cast
      omega
    · rw [hl2, hl1, List.drop_succ_cons]

/-- The flag is never cleared by a completed call, whatever the state. -/
theorem runOp_mono {q q' : Queue} {op : Op} (hsd : q.is_shutdown = true)
    (h : runOp q op = some q') : q'.is_shutdown = true := by
  cases op with
  | enq v =>
    rw [show runOp q (Op.enq v) = enqueue q v from rfl,
      enqueue_shutdown v hsd] at h
    cases h
    exact hsd
  | deq =>
    by_cases hz : q.size = 0
    · rw [show runOp q Op.deq = (dequeue q).map (fun p => p.2) from rfl,
        dequeue_empty_shutdown hz hsd] at h
      cases h
      exact hsd
    · have hd : dequeue q = some (q.buffer q.front,
          { q with front := (q.front + 1).tmod q.capacity
                   size := q.size - 1 }) := by
        simp [dequeue, hz]
      rw [show runOp q Op.deq = (dequeue q).map (fun p => p.2) from rfl,
        hd] at h
      cases h
      exact hsd
  | shut => cases h; rfl
  | isEmptyCall => cases h; exact hsd
  | isShutdownCall => cases h; exact hsd

theorem runOps_mono {q q' : Queue} {ops : List Op} (hsd : q.is_shutdown = true)
    (h : runOps q ops = some q') : q'.is_shutdown = true := by
  induction ops generalizing q with
  | nil => cases h; exact hsd
  | cons op ops ih =>
    rw [show runOps q (op :: ops) =
      (runOp q op).bind (fun q1 => runOps q1 ops) from rfl] at h
    cases hop : runOp q op with
    | none => rw [hop] at h; cases h
    | some q1 =>
      rw [hop] at h
      exact ih (runOp_mono hsd hop) h

/-- Once the flag is set, a woken thread never re-enters the wait: it
finishes its call, and it does so without clearing the flag. -/
theorem wake_shutdown_done {q : Queue} (hsd : q.is_shutdown = true)
    (t : ThreadState) :
    isDone (wake q t).2 = true ∧ (wake q t).1.is_shutdown = true := by
  cases t with
  | blockedEnq v => simp [wake, hsd, isDone, isBlocked]
  | blockedDeq =>
    by_cases hz : q.size = 0 <;> simp [wake, hsd, hz, isDone, isBlocked]
  | doneEnq => simp [wake, hsd, isDone, isBlocked]
  | doneDeq r => simp [wake, hsd, isDone, isBlocked]

theorem wakeAll_shutdown_done {q : Queue} (ts : List ThreadState)
    (hsd : q.is_shutdown = true) :
    (∀ t ∈ (wakeAll q ts).2, isDone t = true) ∧
    (wakeAll q ts).1.is_shutdown = true := by
  induction ts generalizing q with
  | nil =>
    refine ⟨?_, hsd⟩
    intro t ht
    cases ht
  | cons t ts ih =>
    obtain ⟨hd, hq⟩ := wake_shutdown_done hsd t
    obtain ⟨hall, hq'⟩ := ih hq
    refine ⟨?_, hq'⟩
    intro t' ht'
    rw [show wakeAll q (t :: ts) =
      ((wakeAll (wake q t).1 ts).1,
        (wake q t).2 :: (wakeAll (wake q t).1 ts).2) from rfl] at ht'
    rcases List.mem_cons.mp ht' with h | h
    · rw [h]; exact hd
    · exact hall t' h

/-! ### Claim theorems -/

/-- C1: FIFO order.  For every queue of positive capacity `cap` and every
sequence `vs` of distinct values with `vs.length ≤ cap`, enqueueing all of
`vs` on a freshly constructed queue succeeds (no call blocks, no
shutdown), and `vs.length` subsequent dequeues return exactly `vs`, in
enqueue order. -/
theorem fifo_order {cap : Int} {junk : Int → Ptr} {q0 : Queue}
    (vs : List Ptr) (hcap : 0 < cap) (hn : (vs.length : Int) ≤ cap)
    (_hdist : vs.Nodup) (hinit : queue_init cap true true junk = some q0) :
    ∃ q1 q2, enqueueAll q0 vs = some q1 ∧
      dequeueN q1 vs.length = some (vs, q2) := by
  have hInv := Inv_init hcap hinit
  obtain ⟨-, hcapq, hsz, -, -, hsd⟩ := queue_init_inv hinit
  obtain ⟨q1, he, hi1, hcap1, hsz1, hsd1, hl1⟩ :=
    enqueueAll_spec vs hInv hsd (by rw [hcapq, hsz]; omega)
  have h0 : toList q0 = [] := by
    unfold toList
    rw [hsz]
    rfl
  have hl1' : toList q1 = vs := by rw [hl1, h0, List.nil_append]
  obtain ⟨q2, hd, -, -, -, -, -⟩ := dequeueN_spec vs.length hi1
    (by rw [hsz1, hsz]; omega)
  refine ⟨q1, q2, he, ?_⟩
  rw [hd, hl1', List.take_length]

/-- C1 witness: capacity 3, enqueue `[1, 2, 3]`, dequeue 3 times. -/
theorem fifo_order_witness :
    (0 : Int) < 3 ∧ (([1, 2, 3] : List Ptr).length : Int) ≤ 3 ∧
    ([1, 2, 3] : List Ptr).Nodup ∧
    queue_init 3 true true (fun _ => 9) =
      some ⟨fun _ => 9, 3, 0, 0, -1, false⟩ ∧
    (∃ q1 q2, enqueueAll ⟨fun _ => 9, 3, 0, 0, -1, false⟩ [1, 2, 3] = some q1 ∧
      dequeueN q1 ([1, 2, 3] : List Ptr).length = some ([1, 2, 3], q2)) :=
  ⟨by decide, by decide, by decide, rfl,
    fifo_order [1, 2, 3] (by decide) (by decide) (by decide) rfl⟩

/-- C2: drain-then-close.  For every queue satisfying the structural
invariant and holding `k = (toList q).length` resident items when
`queue_shutdown` is called, the next `k` dequeues return exactly those
items in enqueue order, and every later dequeue returns the `NULL`
sentinel at once (the blocking branch is not taken) with the state
unchanged. -/
theorem drain_then_close {q : Queue} (hInv : Inv q) :
    ∃ q2, dequeueN (queue_shutdown q) (toList q).length =
        some (toList q, q2) ∧
      dequeue q2 = some (nullPtr, q2) := by
  have hi1 : Inv (queue_shutdown q) := Inv_shutdown hInv
  obtain ⟨hc, hs0, hsc, hf0, hfc, hrear⟩ := hInv
  have hlen : (((toList q).length : Nat) : Int) ≤ (queue_shutdown q).size := by
    rw [toList_length]
    show ((q.size.toNat : Nat) : Int) ≤ q.size
    omega
  obtain ⟨q2, hd, -, -, hsz2, hsd2, -⟩ :=
    dequeueN_spec (toList q).length hi1 hlen
  have hdrained : q2.size = 0 := by
    rw [hsz2, toList_length]
    show q.size - (q.size.toNat : Int) = 0
    omega
  refine ⟨q2, ?_, dequeue_empty_shutdown hdrained (by rw [hsd2]; rfl)⟩
  rw [hd, toList_shutdown, List.take_length]

/-- C2 witness: a capacity-2 queue holding the single item 5. -/
theorem drain_then_close_witness :
    Inv ⟨Function.update (fun _ => 9) 0 5, 2, 1, 0, 0, false⟩ ∧
    (∃ q2, dequeueN
        (queue_shutdown ⟨Function.update (fun _ => 9) 0 5, 2, 1, 0, 0, false⟩)
        (toList ⟨Function.update (fun _ => 9) 0 5, 2, 1, 0, 0, false⟩).length =
        some (toList ⟨Function.update (fun _ => 9) 0 5, 2, 1, 0, 0, false⟩, q2) ∧
      dequeue q2 = some (nullPtr, q2)) :=
  ⟨by decide, drain_then_close (by decide)⟩

/-- C3: post-shutdown enqueue is an atomic no-op.  If the flag is set,
`enqueue` returns `some q` — the very same state, so `size`, `front`,
`rear`, `buffer`, `capacity` and `is_shutdown` are all unchanged and no
item is inserted. -/
theorem post_shutdown_enqueue_noop (q : Queue) (v : Ptr)
    (hsd : q.is_shutdown = true) : enqueue q v = some q :=
  enqueue_shutdown v hsd

/-- C3 witness: a shut-down capacity-1 queue drops the value 5. -/
theorem post_shutdown_enqueue_noop_witness :
    (Queue.is_shutdown ⟨fun _ => 0, 1, 0, 0, -1, true⟩ = true) ∧
    enqueue ⟨fun _ => 0, 1, 0, 0, -1, true⟩ 5 =
      some ⟨fun _ => 0, 1, 0, 0, -1, true⟩ :=
  ⟨rfl, post_shutdown_enqueue_noop ⟨fun _ => 0, 1, 0, 0, -1, true⟩ 5 rfl⟩

/-- C4: bounds invariant.  Starting from any successful construction with
positive capacity, every completed sequence of
enqueue/dequeue/shutdown/is_empty/is_shutdown calls reaches a state with
`0 ≤ size ≤ capacity`, the capacity unchanged, and the storage holding
exactly `size` live items at the indices `[front, front+size) mod
capacity` (the slots `toList` reads). -/
theorem bounds_invariant {cap : Int} {mq mb : Bool} {junk : Int → Ptr}
    {q0 q' : Queue} (ops : List Op) (hcap : 0 < cap)
    (hinit : queue_init cap mq mb junk = some q0)
    (hrun : runOps q0 ops = some q') :
    0 ≤ q'.size ∧ q'.size ≤ q'.capacity ∧ q'.capacity = cap ∧
    (toList q').length = q'.size.toNat := by
  have hInv := Inv_init hcap hinit
  obtain ⟨hi, hcap', -⟩ := runOps_inv hInv hrun
  obtain ⟨-, h1, h2, -, -, -⟩ := hi
  exact ⟨h1, h2, by rw [hcap', (queue_init_inv hinit).2.1],
    toList_length q'⟩

/-- C4 witness: capacity 2, a run exercising all five operations and a
post-shutdown drain. -/
theorem bounds_invariant_witness :
    ∃ q', runOps ⟨fun _ => 9, 2, 0, 0, -1, false⟩
        [Op.enq 4, Op.enq 5, Op.deq, Op.isEmptyCall, Op.shut,
          Op.isShutdownCall, Op.deq, Op.deq] = some q' ∧
      (0 ≤ q'.size ∧ q'.size ≤ q'.capacity ∧ q'.capacity = 2 ∧
        (toList q').length = q'.size.toNat) :=
  ⟨_, rfl, @bounds_invariant 2 true true (fun _ => 9)
    ⟨fun _ => 9, 2, 0, 0, -1, false⟩ _
    [Op.enq 4, Op.enq 5, Op.deq, Op.isEmptyCall, Op.shut,
      Op.isShutdownCall, Op.deq, Op.deq] (by decide) rfl rfl⟩

/-- C5: shutdown monotonicity and idempotence.  The flag is false at
construction; once true, no completed sequence of calls ever clears it;
and a second `queue_shutdown` is harmless, leaving the state (every
field) identical. -/
theorem shutdown_monotone_idempotent :
    (∀ (cap : Int) (mq mb : Bool) (junk : Int → Ptr) (q0 : Queue),
      queue_init cap mq mb junk = some q0 →
        Queue.is_shutdown q0 = false) ∧
    (∀ (q q' : Queue) (ops : List Op), Queue.is_shutdown q = true →
      runOps q ops = some q' → Queue.is_shutdown q' = true) ∧
    (∀ q : Queue, queue_shutdown (queue_shutdown q) = queue_shutdown q) :=
  ⟨fun _ _ _ _ _ h => (queue_init_inv h).2.2.2.2.2,
   fun _ _ _ hsd hrun => runOps_mono hsd hrun,
   fun _ => rfl⟩

/-- C5 witness: construction leaves the flag clear; after a shutdown a
drain run keeps it set; a repeated shutdown changes nothing. -/
theorem shutdown_monotone_idempotent_witness :
    Queue.is_shutdown (⟨fun _ => 9, 2, 0, 0, -1, false⟩ : Queue) = false ∧
    (∀ q', runOps ⟨fun _ => 9, 1, 1, 0, 0, true⟩ [Op.deq, Op.deq] = some q' →
      Queue.is_shutdown q' = true) ∧
    queue_shutdown (queue_shutdown ⟨fun _ => 9, 1, 1, 0, 0, true⟩) =
      queue_shutdown ⟨fun _ => 9, 1, 1, 0, 0, true⟩ :=
  ⟨shutdown_monotone_idempotent.1 2 true true (fun _ => 9) _ rfl,
   fun q' hrun => shutdown_monotone_idempotent.2.1 _ q' [Op.deq, Op.deq]
     rfl hrun,
   shutdown_monotone_idempotent.2.2 ⟨fun _ => 9, 1, 1, 0, 0, true⟩⟩

/-- C6 counterexample: the `NULL` pointer is itself a storable `void *`
value, and the code's empty sentinel is that same `NULL`.  Enqueue the
null pointer on a fresh capacity-1 queue; the dequeue that genuinely
removes it (size drops 1 → 0) returns `nullPtr` — byte-for-byte the very
value the subsequent dequeue on the empty, shut-down queue returns as its
"nothing to dequeue" sentinel.  The removal is therefore not
distinguishable from the sentinel, refuting the claim at the storable
value `v = nullPtr`. -/
theorem null_payload_equals_sentinel :
    ∃ q1 q2, enqueue ⟨fun _ => 7, 1, 0, 0, -1, false⟩ nullPtr = some q1 ∧
      q1.size = 1 ∧
      dequeue q1 = some (nullPtr, q2) ∧ q2.size = 0 ∧
      dequeue (queue_shutdown q2) = some (nullPtr, queue_shutdown q2) :=
  ⟨_, _, rfl, rfl, rfl, rfl, rfl⟩

/-- C6 amended: the dequeue value of a genuine removal is the stored item
itself, so it coincides with the `NULL` sentinel exactly when the stored
item is the null pointer.  Hence the sentinel is distinguishable from
every *non-null* stored item, but a legitimately stored null payload is
returned as `NULL` and cannot be told apart from "nothing to dequeue". -/
theorem dequeue_removal_value {q : Queue} (hpos : 0 < q.size) :
    ∃ q', dequeue q = some (q.buffer q.front, q') ∧
      q'.size = q.size - 1 ∧
      ((q.buffer q.front = nullPtr) ↔
        dequeue q = some (nullPtr, q')) := by
  have hne : q.size ≠ 0 := by omega
  refine ⟨{ q with front := (q.front + 1).tmod q.capacity
                   size := q.size - 1 }, ?_, rfl, ?_⟩
  · simp [dequeue, hne]
  · constructor
    · intro h
      simp [dequeue, hne, h]
    · intro h
      have := (by simp [dequeue, hne] : dequeue q = some (q.buffer q.front,
        { q with front := (q.front + 1).tmod q.capacity
                 size := q.size - 1 }))
      rw [this] at h
      exact (Prod.mk.injEq _ _ _ _ ▸ (Option.some.injEq _ _ ▸ h)).1

/-- C6 amended witness: a queue holding the non-null item 5 at its front.
The removal returns 5 ≠ `nullPtr`, and the iff rules out the sentinel. -/
theorem dequeue_removal_value_witness :
    (0 : Int) < Queue.size ⟨Function.update (fun _ => 9) 0 5, 2, 1, 0, 0, false⟩ ∧
    (∃ q', dequeue ⟨Function.update (fun _ => 9) 0 5, 2, 1, 0, 0, false⟩ =
        some (Queue.buffer ⟨Function.update (fun _ => 9) 0 5, 2, 1, 0, 0, false⟩
          (Queue.front ⟨Function.update (fun _ => 9) 0 5, 2, 1, 0, 0, false⟩), q') ∧
      q'.size = Queue.size ⟨Function.update (fun _ => 9) 0 5, 2, 1, 0, 0, false⟩ - 1 ∧
      ((Queue.buffer ⟨Function.update (fun _ => 9) 0 5, 2, 1, 0, 0, false⟩
          (Queue.front ⟨Function.update (fun _ => 9) 0 5, 2, 1, 0, 0, false⟩) = nullPtr) ↔
        dequeue ⟨Function.update (fun _ => 9) 0 5, 2, 1, 0, 0, false⟩ =
          some (nullPtr, q'))) :=
  ⟨by decide, dequeue_removal_value (by decide)⟩

/-- C7: construction.  For every positive capacity, when both allocations
succeed `queue_init` yields a queue with `size = 0`, `front = 0`,
`rear = front - 1` (the empty state), the flag clear, the given capacity
and backing storage, on which `is_empty` answers true and `is_shutdown`
answers false; if either `malloc` fails it returns `none` (C `NULL`), so
no partial object is observable. -/
theorem construct_spec (cap : Int) (junk : Int → Ptr) (_hcap : 0 < cap) :
    (∀ q, queue_init cap true true junk = some q →
      q.capacity = cap ∧ q.size = 0 ∧ q.front = 0 ∧ q.rear = q.front - 1 ∧
      Queue.is_shutdown q = false ∧ is_empty q = true ∧
      is_shutdown q = false ∧ q.buffer = junk) ∧
    (∀ mb, queue_init cap false mb junk = none) ∧
    queue_init cap true false junk = none := by
  refine ⟨?_, fun mb => rfl, rfl⟩
  intro q h
  obtain ⟨hbuf, hcap', hsz, hfr, hre, hsd⟩ := queue_init_inv h
  refine ⟨hcap', hsz, hfr, by rw [hre, hfr]; decide, hsd, ?_, ?_, hbuf⟩
  · rw [show is_empty q = (q.size == 0) from rfl, hsz]
    rfl
  · rw [show is_shutdown q = Queue.is_shutdown q from rfl, hsd]

/-- C7 witness: capacity 2. -/
theorem construct_spec_witness :
    (0 : Int) < 2 ∧
    ((∀ q, queue_init 2 true true (fun _ => 9) = some q →
      q.capacity = 2 ∧ q.size = 0 ∧ q.front = 0 ∧ q.rear = q.front - 1 ∧
      Queue.is_shutdown q = false ∧ is_empty q = true ∧
      is_shutdown q = false ∧ q.buffer = fun _ => 9) ∧
    (∀ mb, queue_init 2 false mb (fun _ => 9) = none) ∧
    queue_init 2 true false (fun _ => 9) = none) :=
  ⟨by decide, construct_spec 2 (fun _ => 9) (by decide)⟩

/-- C8: non-positive capacity is not validated.  With capacity 0 both
allocations succeeding still yields a queue handle (no failure is
reported), and the very first enqueue finds `size == capacity`
immediately and parks forever on `not_full` (degenerate behavior; in C
the unreachable `% 0` would even be undefined).  With capacity −1 a
handle is returned as well, and one enqueue "succeeds" leaving
`size > capacity`, violating the bounds invariant. -/
theorem nonpositive_capacity_unchecked :
    (∃ q, queue_init 0 true true (fun _ => 0) = some q ∧
      enqueue q 7 = none) ∧
    (∃ q q', queue_init (-1) true true (fun _ => 0) = some q ∧
      enqueue q 7 = some q' ∧ q'.capacity < q'.size) :=
  ⟨⟨_, rfl, rfl⟩, ⟨_, _, rfl, rfl, by decide⟩⟩

/-- C9: shutdown wakes all.  `queue_shutdown` sets the flag and its two
broadcasts resume every thread parked on either condition (`wakeAll`).
With the flag set, each resumed thread's wait-loop guard is false, so it
finishes in its single resumption step — no thread re-enters the wait,
none is left blocked.  A resumed enqueuer returns leaving the state
untouched (its item is dropped), and a resumed dequeuer on an empty queue
returns the `NULL` sentinel. -/
theorem shutdown_wakes_all (q : Queue) (ts : List ThreadState) (v : Ptr) :
    (∀ t ∈ (wakeAll (queue_shutdown q) ts).2, isDone t = true) ∧
    wake (queue_shutdown q) (ThreadState.blockedEnq v) =
      (queue_shutdown q, ThreadState.doneEnq) ∧
    (q.size = 0 →
      wake (queue_shutdown q) ThreadState.blockedDeq =
        (queue_shutdown q, ThreadState.doneDeq nullPtr)) := by
  refine ⟨(wakeAll_shutdown_done ts rfl).1, ?_, ?_⟩
  · simp [wake, queue_shutdown]
  · intro hz
    simp [wake, queue_shutdown, hz]

/-- C9 witness: an empty capacity-1 queue with a parked enqueuer and a
parked dequeuer; after the broadcast both are done. -/
theorem shutdown_wakes_all_witness :
    isDone ThreadState.doneEnq = true ∧
    wake (queue_shutdown ⟨fun _ => 9, 1, 0, 0, -1, false⟩)
        (ThreadState.blockedEnq 3) =
      (queue_shutdown ⟨fun _ => 9, 1, 0, 0, -1, false⟩,
        ThreadState.doneEnq) ∧
    wake (queue_shutdown ⟨fun _ => 9, 1, 0, 0, -1, false⟩)
        ThreadState.blockedDeq =
      (queue_shutdown ⟨fun _ => 9, 1, 0, 0, -1, false⟩,
        ThreadState.doneDeq nullPtr) :=
  ⟨(shutdown_wakes_all ⟨fun _ => 9, 1, 0, 0, -1, false⟩
      [ThreadState.blockedEnq 3, ThreadState.blockedDeq] 3).1
      ThreadState.doneEnq (by decide),
   (shutdown_wakes_all ⟨fun _ => 9, 1, 0, 0, -1, false⟩
      [ThreadState.blockedEnq 3, ThreadState.blockedDeq] 3).2.1,
   (shutdown_wakes_all ⟨fun _ => 9, 1, 0, 0, -1, false⟩
      [ThreadState.blockedEnq 3, ThreadState.blockedDeq] 3).2.2 rfl⟩

/-- C10: circular-index coherence.  From any successful construction with
positive capacity, every completed call sequence reaches a state with
`0 ≤ front < capacity`; whenever `size > 0` the rear index equals
`(front + size - 1) mod capacity` (the slot of the most recently
enqueued resident item), and when the queue is empty the rear is either
its initial `-1` or `(front - 1) mod capacity`. -/
theorem circular_index_coherence {cap : Int} {mq mb : Bool}
    {junk : Int → Ptr} {q0 q' : Queue} (ops : List Op) (hcap : 0 < cap)
    (hinit : queue_init cap mq mb junk = some q0)
    (hrun : runOps q0 ops = some q') :
    0 ≤ q'.front ∧ q'.front < q'.capacity ∧
    (0 < q'.size → q'.rear = (q'.front + q'.size - 1) % q'.capacity) ∧
    (q'.size = 0 →
      q'.rear = -1 ∨ q'.rear = (q'.front - 1) % q'.capacity) := by
  have hInv := Inv_init hcap hinit
  obtain ⟨hi, -, -⟩ := runOps_inv hInv hrun
  obtain ⟨-, -, -, hf0, hfc, hrear⟩ := hi
  refine ⟨hf0, hfc, ?_, ?_⟩
  · intro hpos
    rcases hrear with ⟨-, h2, -⟩ | ⟨-, -, h3⟩
    · omega
    · exact h3
  · intro hz
    rcases hrear with ⟨h1, -, -⟩ | ⟨-, -, h3⟩
    · exact Or.inl h1
    · refine Or.inr ?_
      rw [h3, hz]
      congr 1
      ring

/-- C10 witness: capacity 2, a run that wraps both indices. -/
theorem circular_index_coherence_witness :
    ∃ q', runOps ⟨fun _ => 9, 2, 0, 0, -1, false⟩
        [Op.enq 4, Op.enq 5, Op.deq, Op.enq 6, Op.deq] = some q' ∧
      (0 ≤ q'.front ∧ q'.front < q'.capacity ∧
      (0 < q'.size → q'.rear = (q'.front + q'.size - 1) % q'.capacity) ∧
      (q'.size = 0 →
        q'.rear = -1 ∨ q'.rear = (q'.front - 1) % q'.capacity)) :=
  ⟨_, rfl, @circular_index_coherence 2 true true (fun _ => 9)
    ⟨fun _ => 9, 2, 0, 0, -1, false⟩ _
    [Op.enq 4, Op.enq 5, Op.deq, Op.enq 6, Op.deq] (by decide) rfl rfl⟩

end BoundedQueue
